import Mathlib

/-!
# SeekQL — Index/Search Orchestration Service: verification development

Shallow embedding of the SeekQL repository (React frontend under
`app/frontend/src`, orchestration backend described by the specification).
The backend sources (FastAPI job manager, bulk indexer, query executor,
path resolver) are not part of the available source tree — only their
HTTP callers in the frontend are — so the backend components are modelled
from the specification, as marked on each definition.  The frontend
components (`FileViewer`, `SearchPage.runSearch`, `ConfigPanel`) are
embedded directly from the JavaScript source.
-/

namespace SeekQL

/-! ## Backend data model (spec §3) -/

/-- Modelled from the spec: `SourcePathEntry` — `{input, resolved, exists}`,
`resolved` is null until validated (spec §3).  The backend Path Resolver
source is not in the tree. -/
structure SourcePathEntry where
  input : String
  resolved : Option String
  exists_ : Bool
deriving Repr, DecidableEq

/-- Modelled from the spec: `IndexResult` — counts, per-path errors and
duration of one completed indexing run (spec §3). -/
structure IndexResult where
  indexedCount : Nat
  errorCount : Nat
  errors : List (String × String)
  durationMs : Nat
deriving Repr, DecidableEq

/-- Modelled from the spec: the Job Manager's two states (spec §4.4). -/
inductive JobState where
  | idle
  | running
deriving Repr, DecidableEq

/-- Modelled from the spec: `IndexingStatus` — process-wide singleton owned
by the Job Manager (spec §3). -/
structure IndexingStatus where
  state : JobState
  lastResult : Option IndexResult
deriving Repr, DecidableEq

/-- Modelled from the spec: outcome of a `start()` request; `alreadyRunning`
is surfaced over HTTP as 409 (spec §4.4, §6). -/
inductive StartOutcome where
  | accepted
  | alreadyRunning
deriving Repr, DecidableEq

/-- Modelled from the spec: `start()` fails with `AlreadyRunning` if not
idle; otherwise it flips the state to `Running` (acquires the lock) and the
run is accepted (spec §4.4). -/
def start (s : IndexingStatus) : StartOutcome × IndexingStatus :=
  match s.state with
  | .running => (.alreadyRunning, s)
  | .idle => (.accepted, { s with state := .running })

/-- Modelled from the spec: `Running → Idle` completion transition — fires
once per run and atomically publishes `lastResult` alongside the state flip
(spec §4.4).  In a state that is not running it has no effect (no run to
complete). -/
def complete (r : IndexResult) (s : IndexingStatus) : IndexingStatus :=
  match s.state with
  | .running => { state := .idle, lastResult := some r }
  | .idle => s

/-- Modelled from the spec: `guard()` reports locked iff `state = Running`
(spec §4.4). -/
def guard (s : IndexingStatus) : Bool :=
  s.state == .running

/-! ## C1 — single-flight start -/

/-- Process a burst of `start()` calls arriving while no completion occurs
in between (the serialization point is the Job Manager's lock, spec §5):
each call is applied in sequence to the status, and its outcome recorded. -/
def processStarts (s : IndexingStatus) : Nat → List StartOutcome × IndexingStatus
  | 0 => ([], s)
  | n + 1 =>
    let (o, s') := start s
    let (os, s'') := processStarts s' n
    (o :: os, s'')

theorem start_running_alreadyRunning (s : IndexingStatus) (h : s.state = .running) :
    start s = (.alreadyRunning, s) := by
  simp [start, h]

theorem processStarts_running (s : IndexingStatus) (h : s.state = .running) :
    ∀ n, processStarts s n = (List.replicate n .alreadyRunning, s) := by
  intro n
  induction n with
  | zero => simp [processStarts]
  | succ n ih =>
    simp [processStarts, start_running_alreadyRunning s h, ih, List.replicate_succ]

/-- C1: for every burst of `start()` calls issued from `Idle`, the first
call is accepted and transitions the state to `Running`; every later call
in the burst fails with `AlreadyRunning` (HTTP 409 at the transport), the
state stays `Running`, and no further run is queued or restarted (the
status after the burst equals the status after the single accepted call). -/
theorem single_flight_start (s : IndexingStatus) (n : Nat)
    (hidle : s.state = .idle) (hn : 0 < n) :
    (processStarts s n).1 =
      .accepted :: List.replicate (n - 1) .alreadyRunning ∧
    ((processStarts s n).1.count .accepted = 1) ∧
    (processStarts s n).2 = { s with state := .running } := by
  obtain ⟨m, rfl⟩ : ∃ m, n = m + 1 := ⟨n - 1, (Nat.succ_pred_eq_of_pos hn).symm⟩
  have hstart : start s = (.accepted, { s with state := .running }) := by
    simp [start, hidle]
  have hrun : (({ s with state := .running } : IndexingStatus)).state = .running := rfl
  have hrest := processStarts_running _ hrun m
  constructor
  · simp [processStarts, hstart, hrest]
  constructor
  · simp [processStarts, hstart, hrest, List.count_replicate]
  · simp [processStarts, hstart, hrest]

theorem single_flight_start_witness :
    (({ state := .idle, lastResult := none } : IndexingStatus).state = .idle) ∧
    (processStarts { state := .idle, lastResult := none } 3).1 =
      .accepted :: List.replicate 2 .alreadyRunning := by
  refine ⟨rfl, ?_⟩
  exact (single_flight_start { state := .idle, lastResult := none } 3 rfl (by decide)).1

/-! ## Query Executor and fetch (spec §4.5, modelled from the spec) -/

/-- Modelled from the spec: a raw hit as returned by the search engine,
with the engine-produced pre-escaped highlight markup (spec §4.5). -/
structure RawHit where
  path : String
  filename : String
  highlightSnippet : Option String
deriving Repr, DecidableEq

/-- Modelled from the spec: the engine's response to one query. -/
structure EngineResp where
  rawHits : List RawHit
  total : Nat
deriving Repr, DecidableEq

/-- The `SearchHit` record of the data model (spec §3). -/
structure SearchHit where
  path : String
  filename : String
  snippet : Option String
deriving Repr, DecidableEq

/-- The `SearchResultSet` record of the data model (spec §3). -/
structure SearchResultSet where
  hits : List SearchHit
  total : Nat
  offset : Nat
deriving Repr, DecidableEq

/-- The `Document` record — full-content fetch result (spec §3). -/
structure Document where
  path : String
  filename : String
  content : String
deriving Repr, DecidableEq

/-- Modelled from the spec: the opaque search-engine collaborator (spec §6):
a deterministic query API plus a get-by-key API over the current index
contents. -/
structure Engine where
  query : String → Nat → Bool → EngineResp
  getByPath : String → Option Document

/-- Modelled from the spec: outcome of a `search` call; `locked` is HTTP
423, `validationError` HTTP 400 (spec §6, §7). -/
inductive SearchOutcome where
  | ok (rs : SearchResultSet)
  | locked
  | validationError
deriving Repr, DecidableEq

/-- Modelled from the spec: outcome of a `fetch` call; `locked` is HTTP
423, `notFound` HTTP 404 (spec §6, §7). -/
inductive FetchOutcome where
  | ok (d : Document)
  | locked
  | notFound
deriving Repr, DecidableEq

/-- HTTP status the transport assigns to a search outcome (spec §6). -/
def searchHttp : SearchOutcome → Nat
  | .ok _ => 200
  | .locked => 423
  | .validationError => 400

/-- HTTP status the transport assigns to a fetch outcome (spec §6). -/
def fetchHttp : FetchOutcome → Nat
  | .ok _ => 200
  | .locked => 423
  | .notFound => 404

/-- Empty or whitespace-only query (spec §4.5: caller-side validation
error). -/
def isBlank (q : String) : Bool :=
  q.data.all Char.isWhitespace

/-- Modelled from the spec: the Executor shapes each engine hit into a
stable `SearchHit`, passing the highlight markup through byte-for-byte
(spec §4.5). -/
def shapeHit (r : RawHit) : SearchHit :=
  { path := r.path, filename := r.filename, snippet := r.highlightSnippet }

/-- Modelled from the spec: `search(query, offset, highlight)` — rejected
with `locked` while `guard()` reports Running, rejects blank queries as a
validation error, otherwise runs the engine query and shapes the result
set (spec §4.5). -/
def searchOp (eng : Engine) (s : IndexingStatus) (q : String) (off : Nat)
    (hl : Bool) : SearchOutcome :=
  if guard s then .locked
  else if isBlank q then .validationError
  else
    let resp := eng.query q off hl
    .ok { hits := resp.rawHits.map shapeHit, total := resp.total, offset := off }

/-- Modelled from the spec: `fetch(path)` — gated by `guard()`, `NotFound`
when no document is indexed under exactly `path` (spec §4.5). -/
def fetchOp (eng : Engine) (s : IndexingStatus) (p : String) : FetchOutcome :=
  if guard s then .locked
  else
    match eng.getByPath p with
    | some d => .ok d
    | none => .notFound

/-! ## C2 — Locked exactly while a run is open -/

/-- Modelled from the spec: the externally observable events of the
orchestration service (spec §6): start requests, run completions, searches
and fetches. -/
inductive Ev where
  | start
  | complete (r : IndexResult)
  | search (q : String) (off : Nat)
  | fetch (p : String)

/-- Observation produced by each event. -/
inductive Obs where
  | started (o : StartOutcome)
  | completed
  | searched (o : SearchOutcome)
  | fetched (o : FetchOutcome)
deriving Repr, DecidableEq

/-- One step of the service: starts and completions mutate the status;
searches and fetches are reads (spec §5). -/
def stepEv (eng : Engine) (s : IndexingStatus) : Ev → Obs × IndexingStatus
  | .start => let (o, s') := start s; (.started o, s')
  | .complete r => (.completed, complete r s)
  | .search q off => (.searched (searchOp eng s q off true), s)
  | .fetch p => (.fetched (fetchOp eng s p), s)

/-- Execute a trace of events from a status, collecting observations. -/
def execTrace (eng : Engine) (s : IndexingStatus) : List Ev → List Obs × IndexingStatus
  | [] => ([], s)
  | e :: evs =>
    let (o, s') := stepEv eng s e
    let (os, s'') := execTrace eng s' evs
    (o :: os, s'')

/-- History predicate: the trace currently sits inside an interval opened
by a `start()` acceptance and not yet closed by the corresponding
Running→Idle completion. -/
def hasOpenRunFrom (b : Bool) : List Ev → Bool
  | [] => b
  | .start :: evs => hasOpenRunFrom true evs
  | .complete _ :: evs => hasOpenRunFrom false evs
  | .search _ _ :: evs => hasOpenRunFrom b evs
  | .fetch _ :: evs => hasOpenRunFrom b evs

def hasOpenRun (evs : List Ev) : Bool :=
  hasOpenRunFrom false evs

/-- Initial status of a fresh process: `Idle`, no `lastResult` (spec §9). -/
def initStatus : IndexingStatus :=
  { state := .idle, lastResult := none }

theorem start_snd_state (s : IndexingStatus) : (start s).2.state = .running := by
  cases h : s.state <;> simp [start, h]

theorem complete_state (r : IndexResult) (s : IndexingStatus) :
    (complete r s).state = .idle := by
  cases h : s.state <;> simp [complete, h]

theorem execTrace_running_iff (eng : Engine) :
    ∀ (evs : List Ev) (s : IndexingStatus),
      ((execTrace eng s evs).2.state = .running ↔
        hasOpenRunFrom (s.state == .running) evs = true) := by
  intro evs
  induction evs with
  | nil =>
    intro s
    simp [execTrace, hasOpenRunFrom]
  | cons e evs ih =>
    intro s
    cases e with
    | start =>
      have h1 : ((start s).2.state == JobState.running) = true := by
        simp [start_snd_state]
      simpa [execTrace, stepEv, hasOpenRunFrom, h1] using ih (start s).2
    | complete r =>
      have h1 : ((complete r s).state == JobState.running) = false := by
        simp [complete_state]
      simpa [execTrace, stepEv, hasOpenRunFrom, h1] using ih (complete r s)
    | search q off =>
      simpa [execTrace, stepEv, hasOpenRunFrom] using ih s
    | fetch p =>
      simpa [execTrace, stepEv, hasOpenRunFrom] using ih s

theorem searchOp_locked_iff (eng : Engine) (s : IndexingStatus) (q : String)
    (off : Nat) (hl : Bool) :
    (searchOp eng s q off hl = .locked ↔ s.state = .running) := by
  constructor
  · intro h
    by_contra hs
    have hg : guard s = false := by
      cases hst : s.state
      · simp [guard, hst]
      · exact absurd hst hs
    by_cases hb : isBlank q = true <;> simp [searchOp, hg, hb] at h
  · intro h
    simp [searchOp, guard, h]

theorem fetchOp_locked_iff (eng : Engine) (s : IndexingStatus) (p : String) :
    (fetchOp eng s p = .locked ↔ s.state = .running) := by
  constructor
  · intro h
    by_contra hs
    have hg : guard s = false := by
      cases hst : s.state
      · simp [guard, hst]
      · exact absurd hst hs
    cases hd : eng.getByPath p <;> simp [fetchOp, hg, hd] at h
  · intro h
    simp [fetchOp, guard, h]

/-- C2: along every trace from the initial status, a `search` or `fetch`
issued at that point returns `Locked` exactly when the trace sits inside
an interval opened by a `start()` acceptance and not yet closed by the
corresponding Running→Idle completion — never outside such an interval —
and `Locked` is transport-distinguishable (HTTP 423) from `NotFound` (404)
and `ValidationError` (400). -/
theorem locked_iff_inside_run (eng : Engine) (evs : List Ev) (q : String)
    (off : Nat) (p : String) :
    (searchOp eng (execTrace eng initStatus evs).2 q off true = .locked ↔
      hasOpenRun evs = true) ∧
    (fetchOp eng (execTrace eng initStatus evs).2 p = .locked ↔
      hasOpenRun evs = true) ∧
    searchHttp .locked = 423 ∧ fetchHttp .locked = 423 ∧
    searchHttp .validationError = 400 ∧ fetchHttp .notFound = 404 := by
  have hrun : ((execTrace eng initStatus evs).2.state = .running ↔
      hasOpenRun evs = true) := by
    simpa [initStatus, hasOpenRun] using execTrace_running_iff eng evs initStatus
  exact ⟨(searchOp_locked_iff eng _ q off true).trans hrun,
    (fetchOp_locked_iff eng _ p).trans hrun, rfl, rfl, rfl, rfl⟩

/-! ## C4 — blank query is a validation error -/

/-- C4: while no run is active, a `search` whose query is empty or
whitespace-only returns `ValidationError` — it is never executed as a
match-all and never yields a result set (empty or otherwise). -/
theorem blank_query_validation_error (eng : Engine) (s : IndexingStatus)
    (q : String) (off : Nat) (hl : Bool)
    (hidle : s.state = .idle) (hq : isBlank q = true) :
    searchOp eng s q off hl = .validationError ∧
    ∀ rs : SearchResultSet, searchOp eng s q off hl ≠ .ok rs := by
  have hg : guard s = false := by simp [guard, hidle]
  refine ⟨by simp [searchOp, hg, hq], ?_⟩
  intro rs
  simp [searchOp, hg, hq]

theorem blank_query_validation_error_witness :
    initStatus.state = .idle ∧ isBlank "" = true ∧ isBlank "  " = true ∧
    searchOp ⟨fun _ _ _ => ⟨[], 0⟩, fun _ => none⟩ initStatus "" 0 true =
      .validationError := by
  refine ⟨rfl, by decide, by decide, ?_⟩
  exact (blank_query_validation_error ⟨fun _ _ _ => ⟨[], 0⟩, fun _ => none⟩
    initStatus "" 0 true rfl (by decide)).1

/-! ## C5 — search is a deterministic, idempotent read -/

/-- C5: `search` is a pure function of the engine index, the job state and
the `(query, offset, highlight)` arguments: two calls made with the same
engine contents and status and identical arguments return identical
outcomes — the same `hits` sequence, the same `total` and byte-identical
snippet markup.  The model has no hidden mutable input (no cursor, no
per-call state), which is the content of the idempotent-read contract. -/
theorem search_idempotent (eng eng' : Engine) (s s' : IndexingStatus)
    (q q' : String) (off off' : Nat) (hl hl' : Bool)
    (heng : eng.query = eng'.query) (hs : s.state = s'.state)
    (hq : q = q') (hoff : off = off') (hhl : hl = hl') :
    searchOp eng s q off hl = searchOp eng' s' q' off' hl' := by
  subst hq hoff hhl
  simp [searchOp, guard, hs, heng]

theorem search_idempotent_witness :
    searchOp ⟨fun _ _ _ => ⟨[⟨"a.sql", "a.sql", some "<em>a</em>"⟩], 1⟩, fun _ => none⟩
        initStatus "select" 0 true =
      searchOp ⟨fun _ _ _ => ⟨[⟨"a.sql", "a.sql", some "<em>a</em>"⟩], 1⟩, fun _ => none⟩
        initStatus "select" 0 true := by
  exact search_idempotent
    ⟨fun _ _ _ => ⟨[⟨"a.sql", "a.sql", some "<em>a</em>"⟩], 1⟩, fun _ => none⟩
    ⟨fun _ _ _ => ⟨[⟨"a.sql", "a.sql", some "<em>a</em>"⟩], 1⟩, fun _ => none⟩
    initStatus initStatus "select" "select" 0 0 true true rfl rfl rfl rfl rfl

/-! ## C6 — highlight markup passes through byte-for-byte -/

/-- C6: when `highlight=true` and the search is admitted (not locked, not
blank), the result set's hits carry, byte-for-byte, exactly the
engine-returned pre-escaped snippet markup — the Executor's shaping step
neither double-escapes nor strips it, and introduces no content of its own
beyond the engine hits (paths and filenames likewise pass through). -/
theorem snippet_passthrough (eng : Engine) (s : IndexingStatus) (q : String)
    (off : Nat) (hg : guard s = false) (hq : isBlank q = false) :
    ∃ rs : SearchResultSet,
      searchOp eng s q off true = .ok rs ∧
      rs.hits.map SearchHit.snippet =
        (eng.query q off true).rawHits.map RawHit.highlightSnippet ∧
      rs.hits.map SearchHit.path = (eng.query q off true).rawHits.map RawHit.path ∧
      rs.total = (eng.query q off true).total := by
  refine ⟨{ hits := (eng.query q off true).rawHits.map shapeHit,
            total := (eng.query q off true).total, offset := off },
    by simp [searchOp, hg, hq], ?_, ?_, rfl⟩
  · simp [shapeHit, Function.comp]
  · simp [shapeHit, Function.comp]

theorem snippet_passthrough_witness :
    guard initStatus = false ∧ isBlank "select" = false ∧
    ∃ rs : SearchResultSet,
      searchOp ⟨fun _ _ _ => ⟨[⟨"a.sql", "a.sql", some "x <em>select</em> y"⟩], 1⟩,
          fun _ => none⟩ initStatus "select" 0 true = .ok rs ∧
      rs.hits.map SearchHit.snippet = [some "x <em>select</em> y"] := by
  refine ⟨rfl, by decide, ?_⟩
  obtain ⟨rs, h1, h2, -, -⟩ := snippet_passthrough
    ⟨fun _ _ _ => ⟨[⟨"a.sql", "a.sql", some "x <em>select</em> y"⟩], 1⟩, fun _ => none⟩
    initStatus "select" 0 rfl (by decide)
  exact ⟨rs, h1, h2⟩

/-! ## C3 — Bulk Indexer (spec §4.3, modelled from the spec) -/

/-- The `CandidateDocument` record of the data model (spec §3). -/
structure CandidateDocument where
  path : String
  filename : String
  content : String
deriving Repr, DecidableEq

/-- Modelled from the spec: batch a document stream into groups of at most
`c` documents, in order (spec §4.3; `helpers.bulk` with `BULK_CHUNK_SIZE`,
default 500).  `c ≥ 1` in every use; for `c = 0` this degenerates to
singleton chunks. -/
def chunksOf (c : Nat) : List α → List (List α)
  | [] => []
  | x :: xs => (x :: xs.take (c - 1)) :: chunksOf c (xs.drop (c - 1))
termination_by l => l.length
decreasing_by
  simp only [List.length_drop, List.length_cons]
  omega

/-- Modelled from the spec: process the chunks in order, starting at chunk
index `i`.  A chunk-level transport failure (`chunkFails i`) records every
document of that chunk as an error; otherwise per-document outcomes
(`docOk`) split the chunk into successes and per-item errors.  Returns
`(indexed, errored, errors)` (spec §4.3). -/
def runChunks (docOk : CandidateDocument → Bool) (chunkFails : Nat → Bool) :
    Nat → List (List CandidateDocument) → Nat × Nat × List (String × String)
  | _, [] => (0, 0, [])
  | i, ch :: rest =>
    let r := runChunks docOk chunkFails (i + 1) rest
    if chunkFails i then
      (r.1, ch.length + r.2.1,
        ch.map (fun d => (d.path, "bulk write failed")) ++ r.2.2)
    else
      ((ch.filter docOk).length + r.1,
        (ch.filter fun d => !docOk d).length + r.2.1,
        (ch.filter fun d => !docOk d).map (fun d => (d.path, "engine item error")) ++ r.2.2)

/-- Modelled from the spec: `index(documents, chunkSize) -> IndexResult`
(spec §4.3). -/
def bulkIndex (docOk : CandidateDocument → Bool) (chunkFails : Nat → Bool)
    (c dur : Nat) (docs : List CandidateDocument) : IndexResult :=
  let r := runChunks docOk chunkFails 0 (chunksOf c docs)
  { indexedCount := r.1, errorCount := r.2.1, errors := r.2.2, durationMs := dur }

/-- Modelled from the spec: the Job Manager's full run — accept the start,
execute the pipeline, complete back to `Idle` publishing the result
(spec §4.4, §2). -/
def runPipeline (docOk : CandidateDocument → Bool) (chunkFails : Nat → Bool)
    (c dur : Nat) (docs : List CandidateDocument) (s : IndexingStatus) :
    StartOutcome × IndexingStatus :=
  match start s with
  | (.alreadyRunning, s') => (.alreadyRunning, s')
  | (.accepted, s') => (.accepted, complete (bulkIndex docOk chunkFails c dur docs) s')

theorem chunksOf_flatten (c : Nat) (l : List α) : (chunksOf c l).flatten = l := by
  have H : ∀ n (l : List α), l.length ≤ n → (chunksOf c l).flatten = l := by
    intro n
    induction n with
    | zero =>
      intro l hl
      have : l = [] := List.eq_nil_of_length_eq_zero (by omega)
      subst this
      simp [chunksOf]
    | succ n ih =>
      intro l hl
      match l with
      | [] => simp [chunksOf]
      | x :: xs =>
        have hrec := ih (xs.drop (c - 1)) (by simp [List.length_drop]; simp at hl; omega)
        simp [chunksOf, hrec]
  exact H l.length l le_rfl

theorem chunksOf_length_le (c : Nat) (hc : 0 < c) (l : List α) :
    ∀ ch ∈ chunksOf c l, ch.length ≤ c := by
  have H : ∀ n (l : List α), l.length ≤ n → ∀ ch ∈ chunksOf c l, ch.length ≤ c := by
    intro n
    induction n with
    | zero =>
      intro l hl
      have : l = [] := List.eq_nil_of_length_eq_zero (by omega)
      subst this
      simp [chunksOf]
    | succ n ih =>
      intro l hl
      match l with
      | [] => simp [chunksOf]
      | x :: xs =>
        intro ch hch
        simp only [chunksOf, List.mem_cons] at hch
        rcases hch with rfl | hmem
        · simp only [List.length_cons, List.length_take]
          omega
        · exact ih (xs.drop (c - 1)) (by simp [List.length_drop]; simp at hl; omega) ch hmem
  exact H l.length l le_rfl

theorem chunksOf_count (c : Nat) (hc : 0 < c) (l : List α) :
    (chunksOf c l).length = (l.length + c - 1) / c := by
  have H : ∀ n (l : List α), l.length ≤ n →
      (chunksOf c l).length = (l.length + c - 1) / c := by
    intro n
    induction n with
    | zero =>
      intro l hl
      have : l = [] := List.eq_nil_of_length_eq_zero (by omega)
      subst this
      have h0 : (0 + c - 1) / c = 0 := Nat.div_eq_of_lt (by omega)
      have h0' : (c - 1) / c = 0 := Nat.div_eq_of_lt (by omega)
      simp [chunksOf, h0, h0']
    | succ n ih =>
      intro l hl
      match l with
      | [] =>
        have h0 : (0 + c - 1) / c = 0 := Nat.div_eq_of_lt (by omega)
        have h0' : (c - 1) / c = 0 := Nat.div_eq_of_lt (by omega)
        simp [chunksOf, h0, h0']
      | x :: xs =>
        have hrec := ih (xs.drop (c - 1)) (by simp [List.length_drop]; simp at hl; omega)
        simp only [chunksOf, List.length_cons, hrec, List.length_drop]
        have hxc : xs.length + 1 + c - 1 = xs.length + c := by omega
        rw [hxc, Nat.add_div_right _ hc]
        by_cases hcase : c - 1 ≤ xs.length
        · have h1 : xs.length - (c - 1) + c - 1 = xs.length := by omega
          rw [h1]
        · have h1 : xs.length - (c - 1) + c - 1 = c - 1 := by omega
          rw [h1]
          rw [Nat.div_eq_of_lt (by omega), Nat.div_eq_of_lt (by omega)]
  exact H l.length l le_rfl

theorem length_filter_add_length_filter_not (p : α → Bool) (l : List α) :
    (l.filter p).length + (l.filter fun a => !p a).length = l.length := by
  induction l with
  | nil => simp
  | cons x xs ih => cases h : p x <;> simp [List.filter_cons, h] <;> omega

theorem runChunks_total (docOk : CandidateDocument → Bool)
    (chunkFails : Nat → Bool) :
    ∀ (chs : List (List CandidateDocument)) (i : Nat),
      (runChunks docOk chunkFails i chs).1 + (runChunks docOk chunkFails i chs).2.1 =
        (chs.map List.length).sum := by
  intro chs
  induction chs with
  | nil => intro i; simp [runChunks]
  | cons ch rest ih =>
    intro i
    by_cases hf : chunkFails i = true
    · simp only [runChunks, hf, if_true, List.map_cons, List.sum_cons]
      have := ih (i + 1)
      omega
    · simp only [runChunks, hf, if_false, Bool.false_eq_true, List.map_cons, List.sum_cons]
      have h1 := ih (i + 1)
      have h2 := length_filter_add_length_filter_not docOk ch
      omega

theorem bulkIndex_conservation (docOk : CandidateDocument → Bool)
    (chunkFails : Nat → Bool) (c dur : Nat)
    (docs : List CandidateDocument) :
    (bulkIndex docOk chunkFails c dur docs).indexedCount +
      (bulkIndex docOk chunkFails c dur docs).errorCount = docs.length := by
  have h1 := runChunks_total docOk chunkFails (chunksOf c docs) 0
  have h2 : ((chunksOf c docs).map List.length).sum = docs.length := by
    rw [← List.length_flatten, chunksOf_flatten]
  simp only [bulkIndex]
  omega

theorem chunksOf_append (c : Nat) (l1 l2 : List α) (h : l1.length = c)
    (hc : 0 < c) : chunksOf c (l1 ++ l2) = l1 :: chunksOf c l2 := by
  match l1 with
  | [] => simp at h; omega
  | x :: xs =>
    have hxs : xs.length = c - 1 := by simp at h; omega
    simp only [List.cons_append, chunksOf]
    rw [List.take_left' hxs, List.drop_left' hxs]

theorem chunksOf_small (c : Nat) (l : List α) (hne : l ≠ []) (h : l.length ≤ c) :
    chunksOf c l = [l] := by
  match l with
  | [] => exact absurd rfl hne
  | x :: xs =>
    have h1 : xs.length ≤ c - 1 := by simp at h; omega
    simp only [chunksOf, List.take_of_length_le h1, List.drop_eq_nil_of_le h1]

/-- Concrete candidate document for the 1200-document scenario. -/
def sampleDoc : CandidateDocument :=
  { path := "a.sql", filename := "a.sql", content := "select 1" }

/-- A walk yielding 1200 candidate documents (spec §8). -/
def docs1200 : List CandidateDocument :=
  List.replicate 1200 sampleDoc

/-- Engine behaviour: every per-document outcome succeeds. -/
def allOk : CandidateDocument → Bool := fun _ => true

/-- Engine behaviour: the third batch's write call (chunk index 2) fails
entirely; the other batches succeed. -/
def thirdChunkFails : Nat → Bool := fun i => i == 2

theorem runChunks_cons_fail (docOk : CandidateDocument → Bool)
    (chunkFails : Nat → Bool) (i : Nat) (ch : List CandidateDocument)
    (rest : List (List CandidateDocument)) (h : chunkFails i = true) :
    runChunks docOk chunkFails i (ch :: rest) =
      ((runChunks docOk chunkFails (i + 1) rest).1,
       ch.length + (runChunks docOk chunkFails (i + 1) rest).2.1,
       ch.map (fun d => (d.path, "bulk write failed")) ++
         (runChunks docOk chunkFails (i + 1) rest).2.2) := by
  simp only [runChunks, h, if_true]

theorem runChunks_cons_ok (docOk : CandidateDocument → Bool)
    (chunkFails : Nat → Bool) (i : Nat) (ch : List CandidateDocument)
    (rest : List (List CandidateDocument)) (h : chunkFails i = false) :
    runChunks docOk chunkFails i (ch :: rest) =
      ((ch.filter docOk).length + (runChunks docOk chunkFails (i + 1) rest).1,
       (ch.filter fun d => !docOk d).length +
         (runChunks docOk chunkFails (i + 1) rest).2.1,
       (ch.filter fun d => !docOk d).map (fun d => (d.path, "engine item error")) ++
         (runChunks docOk chunkFails (i + 1) rest).2.2) := by
  simp only [runChunks, h, Bool.false_eq_true, if_false]

theorem chunks1200 : chunksOf 500 docs1200 =
    [List.replicate 500 sampleDoc, List.replicate 500 sampleDoc,
     List.replicate 200 sampleDoc] := by
  have h1 : docs1200 = List.replicate 500 sampleDoc ++
      (List.replicate 500 sampleDoc ++ List.replicate 200 sampleDoc) := by
    simp only [docs1200]
    rw [← List.replicate_add, ← List.replicate_add]
  have e1 := chunksOf_append 500 (List.replicate 500 sampleDoc)
    (List.replicate 500 sampleDoc ++ List.replicate 200 sampleDoc)
    (List.length_replicate 500 sampleDoc) (by norm_num)
  have e2 := chunksOf_append 500 (List.replicate 500 sampleDoc)
    (List.replicate 200 sampleDoc) (List.length_replicate 500 sampleDoc)
    (by norm_num)
  have e3 := chunksOf_small 500 (List.replicate 200 sampleDoc)
    (List.ne_nil_of_length_pos (by rw [List.length_replicate]; norm_num))
    (by rw [List.length_replicate]; norm_num)
  rw [h1, e1, e2, e3]

theorem bulkIndex_indexedCount (docOk : CandidateDocument → Bool)
    (chunkFails : Nat → Bool) (c dur : Nat) (docs : List CandidateDocument) :
    (bulkIndex docOk chunkFails c dur docs).indexedCount =
      (runChunks docOk chunkFails 0 (chunksOf c docs)).1 := rfl

theorem bulkIndex_errorCount (docOk : CandidateDocument → Bool)
    (chunkFails : Nat → Bool) (c dur : Nat) (docs : List CandidateDocument) :
    (bulkIndex docOk chunkFails c dur docs).errorCount =
      (runChunks docOk chunkFails 0 (chunksOf c docs)).2.1 := rfl

theorem runChunks1200 :
    (runChunks allOk thirdChunkFails 0
      [List.replicate 500 sampleDoc, List.replicate 500 sampleDoc,
       List.replicate 200 sampleDoc]).1 = 1000 ∧
    (runChunks allOk thirdChunkFails 0
      [List.replicate 500 sampleDoc, List.replicate 500 sampleDoc,
       List.replicate 200 sampleDoc]).2.1 = 200 := by
  rw [runChunks_cons_ok allOk thirdChunkFails 0 _ _ rfl,
    runChunks_cons_ok allOk thirdChunkFails (0 + 1) _ _ rfl,
    runChunks_cons_fail allOk thirdChunkFails (0 + 1 + 1) _ _ rfl]
  have hfa : ∀ l : List CandidateDocument, List.filter allOk l = l :=
    fun l => List.filter_true l
  simp only [hfa, allOk, Bool.not_true, List.filter_true, List.filter_false,
    List.length_replicate, List.length_nil, runChunks]
  norm_num

/-- C3: for every indexing run over `n` candidate documents with chunk
size `c > 0`, the Bulk Indexer issues `⌈n/c⌉` bulk batches of at most `c`
documents each and the resulting `IndexResult` satisfies
`indexedCount + errorCount = n`; moreover for `n = 1200`, `c = 500` it
issues 3 batches of 500, 500 and 200 documents, and when the third batch's
write call fails entirely the result has `indexedCount = 1000`,
`errorCount = 200`, and the run still transitions to `Idle` (publishing
that result). -/
theorem bulk_indexer_correct :
    (∀ (docs : List CandidateDocument) (c : Nat)
        (docOk : CandidateDocument → Bool) (chunkFails : Nat → Bool)
        (dur : Nat), 0 < c →
      (chunksOf c docs).length = (docs.length + c - 1) / c ∧
      (∀ ch ∈ chunksOf c docs, ch.length ≤ c) ∧
      (bulkIndex docOk chunkFails c dur docs).indexedCount +
        (bulkIndex docOk chunkFails c dur docs).errorCount = docs.length ∧
      (runPipeline docOk chunkFails c dur docs initStatus).2.state = .idle) ∧
    (chunksOf 500 docs1200).map List.length = [500, 500, 200] ∧
    (bulkIndex allOk thirdChunkFails 500 0 docs1200).indexedCount = 1000 ∧
    (bulkIndex allOk thirdChunkFails 500 0 docs1200).errorCount = 200 ∧
    (runPipeline allOk thirdChunkFails 500 0 docs1200 initStatus).1 = .accepted ∧
    (runPipeline allOk thirdChunkFails 500 0 docs1200 initStatus).2.state = .idle ∧
    (runPipeline allOk thirdChunkFails 500 0 docs1200 initStatus).2.lastResult =
      some (bulkIndex allOk thirdChunkFails 500 0 docs1200) := by
  refine ⟨?_, ?_, ?_, ?_, ?_, ?_, ?_⟩
  · intro docs c docOk chunkFails dur hc
    refine ⟨chunksOf_count c hc docs, chunksOf_length_le c hc docs,
      bulkIndex_conservation docOk chunkFails c dur docs, ?_⟩
    simp [runPipeline, start, initStatus, complete]
  · rw [chunks1200]
    simp only [List.map_cons, List.map_nil, List.length_replicate]
  · rw [bulkIndex_indexedCount, chunks1200]
    exact runChunks1200.1
  · rw [bulkIndex_errorCount, chunks1200]
    exact runChunks1200.2
  · simp only [runPipeline, start, initStatus]
  · simp only [runPipeline, start, initStatus, complete]
  · simp only [runPipeline, start, initStatus, complete]

theorem bulk_indexer_correct_witness :
    (0 : Nat) < 500 ∧
    (chunksOf 500 docs1200).length = (docs1200.length + 500 - 1) / 500 ∧
    (bulkIndex allOk thirdChunkFails 500 0 docs1200).indexedCount +
      (bulkIndex allOk thirdChunkFails 500 0 docs1200).errorCount =
        docs1200.length := by
  refine ⟨by decide, ?_, ?_⟩
  · exact (bulk_indexer_correct.1 docs1200 500 allOk thirdChunkFails 0 (by decide)).1
  · exact (bulk_indexer_correct.1 docs1200 500 allOk thirdChunkFails 0
      (by decide)).2.2.1

/-! ## C7 — per-entry path resolution (spec §4.1, §6, modelled from the spec) -/

/-- Modelled from the spec: resolve one configured input — normalize it
against the known base and check directory existence; an entry that does
not resolve to an existing directory keeps `resolved = null` and
`exists = false`, without failing the batch (spec §4.1, §3).  `fs` is the
read-only directory-existence check of the filesystem collaborator
(spec §6); `normalize` the base-relative normalization. -/
def resolveOne (fs : String → Bool) (normalize : String → String)
    (i : String) : SourcePathEntry :=
  let r := normalize i
  if fs r then { input := i, resolved := some r, exists_ := true }
  else { input := i, resolved := none, exists_ := false }

/-- Modelled from the spec: `resolve(inputs) -> sequence of SourcePathEntry`
— one entry per input, each independent of the others (spec §4.1);
`saveConfig` re-resolves exactly this way (spec §6; the on-disk persistence
mechanics are excluded collaborators, spec §1). -/
def resolvePaths (fs : String → Bool) (normalize : String → String)
    (inputs : List String) : List SourcePathEntry :=
  inputs.map (resolveOne fs normalize)

/-- Modelled from the spec: the Document Source Walker traverses only
`exists=true` entries (spec §4.2). -/
def walkedEntries (entries : List SourcePathEntry) : List SourcePathEntry :=
  entries.filter (fun e => e.exists_)

/-- Concrete filesystem for the `["./sql", "./missing_dir"]` scenario: only
the resolved `./sql` directory exists. -/
def fsSample : String → Bool := fun p => p == "/base/sql"

/-- Concrete normalization: expand `./x` against the base `/base`. -/
def normSample : String → String := fun i => "/base/" ++ i.drop 2

/-- C7: `saveConfig` returns one `SourcePathEntry` per input — the i-th
output entry is a function of the i-th input alone, so no entry is dropped
when another fails — each entry carrying `exists=true` with a non-null
`resolved` exactly when its path resolves to an existing directory, and
`exists=false` (null `resolved`) otherwise; an indexing run walks exactly
the `exists=true` entries.  In particular `["./sql", "./missing_dir"]`
(where only `./sql` resolves to an existing directory) yields two entries —
the first `exists=true` with non-null `resolved`, the second `exists=false`
— and the walk visits only the first. -/
theorem save_config_per_entry :
    (∀ (fs : String → Bool) (normalize : String → String) (inputs : List String),
      (resolvePaths fs normalize inputs).length = inputs.length) ∧
    (∀ (fs : String → Bool) (normalize : String → String) (inputs : List String)
        (i : Nat),
      (resolvePaths fs normalize inputs)[i]? =
        (inputs[i]?).map (resolveOne fs normalize)) ∧
    (∀ (fs : String → Bool) (normalize : String → String) (inp : String),
      (resolveOne fs normalize inp).exists_ = fs (normalize inp) ∧
      (resolveOne fs normalize inp).resolved =
        (if fs (normalize inp) then some (normalize inp) else none) ∧
      ((resolveOne fs normalize inp).exists_ = true →
        (resolveOne fs normalize inp).resolved ≠ none)) ∧
    (∀ (entries : List SourcePathEntry) (e : SourcePathEntry),
      e ∈ walkedEntries entries ↔ e ∈ entries ∧ e.exists_ = true) ∧
    resolvePaths fsSample normSample ["./sql", "./missing_dir"] =
      [{ input := "./sql", resolved := some "/base/sql", exists_ := true },
       { input := "./missing_dir", resolved := none, exists_ := false }] ∧
    walkedEntries (resolvePaths fsSample normSample ["./sql", "./missing_dir"]) =
      [{ input := "./sql", resolved := some "/base/sql", exists_ := true }] := by
  refine ⟨?_, ?_, ?_, ?_, ?_, ?_⟩
  · intro fs normalize inputs
    simp [resolvePaths]
  · intro fs normalize inputs i
    simp [resolvePaths]
  · intro fs normalize inp
    by_cases h : fs (normalize inp) <;> simp [resolveOne, h]
  · intro entries e
    simp [walkedEntries, List.mem_filter]
  · decide
  · decide

theorem save_config_per_entry_witness :
    (resolveOne fsSample normSample "./sql").exists_ = true ∧
    (resolveOne fsSample normSample "./sql").resolved ≠ none := by
  refine ⟨by decide, ?_⟩
  exact (save_config_per_entry.2.2.1 fsSample normSample "./sql").2.2 (by decide)

/-! ## C9 — `SearchPage.runSearch` resets results on failure
(embedded from `app/frontend/src/pages/SearchPage.jsx`) -/

/-- The `SearchPage` component state touched by `runSearch` (the React
`useState` hooks of `SearchPage.jsx`). -/
structure PageState where
  hits : List SearchHit
  total : Nat
  loading : Bool
  info : String
  error : String
  selectedPath : Option String
  doc : Option Document
  docError : String
  docLoading : Bool
deriving Repr, DecidableEq

/-- Outcome of the `searchApi` call as `runSearch` observes it:
HTTP 423, a parsed JSON body with `hits`/`total`, a parsed JSON body
carrying a truthy `detail` (thrown and caught in `runSearch`), or the
fetch/`res.json()` rejecting with an error message. -/
inductive SearchApiOutcome where
  | status423
  | jsonOk (hits : List SearchHit) (total : Nat)
  | jsonDetail (detail : String)
  | threw (msg : String)
deriving Repr, DecidableEq

/-- JS `e.message || 'Search error'`. -/
def jsMessageOr (m dflt : String) : String :=
  if m = "" then dflt else m

/-- JS `String.prototype.trim`: strip whitespace from both ends. -/
def jsTrim (s : String) : String :=
  ⟨((s.data.dropWhile Char.isWhitespace).reverse.dropWhile
      Char.isWhitespace).reverse⟩

/-- Embedding of `runSearch` (SearchPage.jsx): clears `error`/`info`,
validates the trimmed query, skips the request while `status.indexing`,
then applies the `searchApi` outcome — on success it stores `hits`/`total`
and resets the selection; in the `catch` branch it sets the error message
and resets `hits` to `[]` and `total` to `0`; `finally` clears
`loading`. -/
def runSearch (qRaw : String) (statusIndexing : Bool)
    (api : SearchApiOutcome) (st : PageState) : PageState :=
  let st0 := { st with error := "", info := "" }
  if jsTrim qRaw = "" then
    { st0 with hits := [], total := 0, error := "Enter a query" }
  else if statusIndexing then
    { st0 with info := "Indexing in progress — please try again in a moment." }
  else
    match api with
    | .status423 =>
      { st0 with info := "Indexing in progress — please try again in a moment.",
                 loading := false }
    | .jsonOk hits total =>
      { st0 with hits := hits, total := total, selectedPath := none,
                 doc := none, docError := "", docLoading := false,
                 loading := false }
    | .jsonDetail d =>
      { st0 with error := jsMessageOr d "Search error", hits := [], total := 0,
                 loading := false }
    | .threw m =>
      { st0 with error := jsMessageOr m "Search error", hits := [], total := 0,
                 loading := false }

/-- A search request failed: the response carried a truthy error `detail`,
or the fetch / body parsing threw. -/
def SearchApiOutcome.isFailure : SearchApiOutcome → Bool
  | .jsonDetail _ => true
  | .threw _ => true
  | _ => false

/-- C9: whenever the search request fails (the fetch throws or the
response carries an error detail), `runSearch` leaves the page with
`hits = []`, `total = 0` and a non-empty error message — an error is never
displayed alongside hits retained from a previous successful search. -/
theorem search_error_resets_results (qRaw : String) (api : SearchApiOutcome)
    (st : PageState) (hq : jsTrim qRaw ≠ "") (hfail : api.isFailure = true) :
    (runSearch qRaw false api st).hits = [] ∧
    (runSearch qRaw false api st).total = 0 ∧
    (runSearch qRaw false api st).error ≠ "" := by
  cases api with
  | status423 => simp [SearchApiOutcome.isFailure] at hfail
  | jsonOk hits total => simp [SearchApiOutcome.isFailure] at hfail
  | jsonDetail d =>
    refine ⟨by simp [runSearch, hq], by simp [runSearch, hq], ?_⟩
    by_cases hd : d = "" <;> simp [runSearch, hq, jsMessageOr, hd]
  | threw m =>
    refine ⟨by simp [runSearch, hq], by simp [runSearch, hq], ?_⟩
    by_cases hm : m = "" <;> simp [runSearch, hq, jsMessageOr, hm]

/-- The page state before the failing search in the witness: a previous
successful search left one hit and an old total on screen. -/
def pageBefore : PageState :=
  { hits := [{ path := "a.sql", filename := "a.sql", snippet := some "x" }],
    total := 1, loading := false, info := "", error := "",
    selectedPath := none, doc := none, docError := "", docLoading := false }

theorem search_error_resets_results_witness :
    jsTrim "select" ≠ "" ∧ (SearchApiOutcome.threw "boom").isFailure = true ∧
    (runSearch "select" false (.threw "boom") pageBefore).hits = [] ∧
    (runSearch "select" false (.threw "boom") pageBefore).total = 0 := by
  refine ⟨by decide, by decide, ?_, ?_⟩
  · exact (search_error_resets_results "select" (.threw "boom") pageBefore
      (by decide) (by decide)).1
  · exact (search_error_resets_results "select" (.threw "boom") pageBefore
      (by decide) (by decide)).2.1

/-! ## C10 — `FileViewer` current-match index stays in range
(embedded from `FileViewer.jsx`) -/

/-- The `FileViewer` find-in-file state: the current-match index `idx` and
the match count `count` of the rendered highlight pass. -/
structure FVState where
  idx : Nat
  count : Nat
deriving Repr, DecidableEq

/-- Embedding of `goNext` (FileViewer.jsx): `if (count) setIdx((idx + 1) % count)`. -/
def goNext (s : FVState) : FVState :=
  if s.count ≠ 0 then { s with idx := (s.idx + 1) % s.count } else s

/-- Embedding of `goPrev` (FileViewer.jsx): `if (count) setIdx((idx - 1 + count) % count)`
— with `idx ≥ 0`, `idx - 1 + count` is `idx + count - 1`. -/
def goPrev (s : FVState) : FVState :=
  if s.count ≠ 0 then { s with idx := (s.idx + s.count - 1) % s.count } else s

/-- The clamping effect (FileViewer.jsx): `if (idx >= count && count > 0)
setIdx(count - 1); if (count === 0 && idx !== 0) setIdx(0)` — both
conditions read the same rendered `idx`/`count` and are mutually
exclusive. -/
def clampIdx (s : FVState) : FVState :=
  if s.idx ≥ s.count ∧ 0 < s.count then { s with idx := s.count - 1 }
  else if s.count = 0 ∧ s.idx ≠ 0 then { s with idx := 0 }
  else s

/-- A needle/content change rebuilds the highlight pass with a new match
count and runs the clamping effect. -/
def recount (n : Nat) (s : FVState) : FVState :=
  clampIdx { s with count := n }

/-- The reset effect (FileViewer.jsx): `setIdx(0)` whenever the needle or
content changes. -/
def resetIdx (s : FVState) : FVState :=
  { s with idx := 0 }

/-- The user-visible operations on the find-in-file state. -/
inductive FVOp where
  | next
  | prev
  | recount (n : Nat)
  | reset

def fvStep (s : FVState) : FVOp → FVState
  | .next => goNext s
  | .prev => goPrev s
  | .recount n => recount n s
  | .reset => resetIdx s

def fvRun (s : FVState) (ops : List FVOp) : FVState :=
  ops.foldl fvStep s

/-- The range invariant of the current-match index. -/
def fvInv (s : FVState) : Prop :=
  (0 < s.count → s.idx < s.count) ∧ (s.count = 0 → s.idx = 0)

theorem goNext_zero (i : Nat) : goNext ⟨i, 0⟩ = ⟨i, 0⟩ := by
  simp [goNext]

theorem goNext_pos (i c : Nat) (hc : c ≠ 0) :
    goNext ⟨i, c⟩ = ⟨(i + 1) % c, c⟩ := by
  simp [goNext, hc]

theorem goPrev_zero (i : Nat) : goPrev ⟨i, 0⟩ = ⟨i, 0⟩ := by
  simp [goPrev]

theorem goPrev_pos (i c : Nat) (hc : c ≠ 0) :
    goPrev ⟨i, c⟩ = ⟨(i + c - 1) % c, c⟩ := by
  simp [goPrev, hc]

theorem clampIdx_high (i c : Nat) (hge : i ≥ c) (hp : 0 < c) :
    clampIdx ⟨i, c⟩ = ⟨c - 1, c⟩ := by
  simp [clampIdx, hge, hp]

theorem clampIdx_zero_ne (i : Nat) (hi : i ≠ 0) : clampIdx ⟨i, 0⟩ = ⟨0, 0⟩ := by
  simp [clampIdx, hi]

theorem clampIdx_zero_zero : clampIdx ⟨0, 0⟩ = ⟨0, 0⟩ := by
  simp [clampIdx]

theorem clampIdx_in_range (i c : Nat) (h : i < c) : clampIdx ⟨i, c⟩ = ⟨i, c⟩ := by
  have h1 : ¬(i ≥ c ∧ 0 < c) := by omega
  have h2 : ¬(c = 0 ∧ i ≠ 0) := by omega
  simp [clampIdx, h1, h2]

theorem fvStep_preserves (s : FVState) (op : FVOp) (h : fvInv s) :
    fvInv (fvStep s op) := by
  obtain ⟨i, c⟩ := s
  obtain ⟨h1, h2⟩ := h
  cases op with
  | next =>
    by_cases hc : c = 0
    · subst hc
      show fvInv (goNext ⟨i, 0⟩)
      rw [goNext_zero]
      exact ⟨h1, h2⟩
    · show fvInv (goNext ⟨i, c⟩)
      rw [goNext_pos i c hc]
      exact ⟨fun _ => Nat.mod_lt _ (by omega), fun hz => absurd hz hc⟩
  | prev =>
    by_cases hc : c = 0
    · subst hc
      show fvInv (goPrev ⟨i, 0⟩)
      rw [goPrev_zero]
      exact ⟨h1, h2⟩
    · show fvInv (goPrev ⟨i, c⟩)
      rw [goPrev_pos i c hc]
      exact ⟨fun _ => Nat.mod_lt _ (by omega), fun hz => absurd hz hc⟩
  | recount n =>
    show fvInv (clampIdx ⟨i, n⟩)
    by_cases hp : 0 < n
    · by_cases hge : i ≥ n
      · rw [clampIdx_high i n hge hp]
        refine ⟨fun _ => ?_, fun hz => absurd (show n = 0 from hz) (by omega)⟩
        show n - 1 < n
        omega
      · rw [clampIdx_in_range i n (by omega)]
        refine ⟨fun _ => ?_, fun hz => absurd (show n = 0 from hz) (by omega)⟩
        show i < n
        omega
    · have hn0 : n = 0 := by omega
      subst hn0
      by_cases hi : i = 0
      · subst hi
        rw [clampIdx_zero_zero]
        exact ⟨fun h0 => absurd h0 (lt_irrefl 0), fun _ => rfl⟩
      · rw [clampIdx_zero_ne i hi]
        exact ⟨fun h0 => absurd h0 (lt_irrefl 0), fun _ => rfl⟩
  | reset =>
    show fvInv (⟨0, c⟩ : FVState)
    exact ⟨fun h0 => h0, fun _ => rfl⟩

/-- C10: from the initial state (`idx = 0`, no matches), after any sequence
of next/prev/needle-change/reset operations the current-match index is in
`[0, count-1]` whenever `count > 0` and is `0` when `count = 0`; `goNext`
and `goPrev` wrap modulo the match count (last wraps to first and first
back to last). -/
theorem viewer_index_in_range :
    (∀ ops : List FVOp, fvInv (fvRun { idx := 0, count := 0 } ops)) ∧
    (∀ n : Nat, 0 < n →
      goNext { idx := n - 1, count := n } = { idx := 0, count := n } ∧
      goPrev { idx := 0, count := n } = { idx := n - 1, count := n }) := by
  constructor
  · have H : ∀ (ops : List FVOp) (s : FVState), fvInv s → fvInv (fvRun s ops) := by
      intro ops
      induction ops with
      | nil => intro s h; exact h
      | cons op rest ih =>
        intro s h
        exact ih (fvStep s op) (fvStep_preserves s op h)
    intro ops
    exact H ops _ ⟨fun h0 => absurd h0 (lt_irrefl 0), fun _ => rfl⟩
  · intro n hn
    constructor
    · simp only [goNext]
      rw [if_pos (by omega : n ≠ 0)]
      have : n - 1 + 1 = n := by omega
      simp [this, Nat.mod_self]
    · simp only [goPrev]
      rw [if_pos (by omega : n ≠ 0)]
      have h1 : 0 + n - 1 = n - 1 := by omega
      rw [h1, Nat.mod_eq_of_lt (by omega)]

theorem viewer_index_in_range_witness :
    (0 : Nat) < 3 ∧
    fvInv (fvRun { idx := 0, count := 0 }
      [.recount 3, .next, .next, .next, .prev, .recount 1]) ∧
    goNext { idx := 2, count := 3 } = { idx := 0, count := 3 } := by
  refine ⟨by decide, viewer_index_in_range.1 _, ?_⟩
  have h := (viewer_index_in_range.2 3 (by decide)).1
  simpa using h

/-! ## C8 — `FileViewer` builds tag-safe HTML
(embedded from `FileViewer.jsx`, `src/unnamed/part_005`) -/

/-- Embedding of `escapeHtml` (FileViewer.jsx) acting on one character: the three
sequential `replace` calls (`&`→`&amp;`, then `<`→`&lt;`, then `>`→`&gt;`)
touch disjoint characters — the later replacements never revisit the `&`
introduced by an earlier one — so they amount to this simultaneous
character map. -/
def escHtmlChar (c : Char) : List Char :=
  if c = '&' then "&amp;".data
  else if c = '<' then "&lt;".data
  else if c = '>' then "&gt;".data
  else [c]

/-- Embedding of `escapeHtml` (FileViewer.jsx) over a character list. -/
def escHtml : List Char → List Char
  | [] => []
  | c :: cs => escHtmlChar c ++ escHtml cs

/-- One decimal digit, for the JS template interpolation of a number. -/
def digitChar : Nat → Char
  | 0 => '0' | 1 => '1' | 2 => '2' | 3 => '3' | 4 => '4'
  | 5 => '5' | 6 => '6' | 7 => '7' | 8 => '8' | _ => '9'

/-- Decimal rendering of a `Nat` (JS `${n}`), fuelled structurally so that
it evaluates in the kernel. -/
def natCharsAux : Nat → Nat → List Char
  | 0, _ => []
  | fuel + 1, n =>
    if n < 10 then [digitChar n]
    else natCharsAux fuel (n / 10) ++ [digitChar (n % 10)]

def natChars (n : Nat) : List Char :=
  natCharsAux n n

/-- The tail of the opening mark tag
`<mark class="hit${currentClass}" data-hit="${n}">` (FileViewer.jsx),
where `currentClass` is `" current"` exactly when this is the
current hit. -/
def markOpenRest (cur : Bool) (n : Nat) : List Char :=
  "mark class=\"hit".data ++ (if cur then " current".data else []) ++
    "\" data-hit=\"".data ++ natChars n ++ "\">".data

/-- The opening mark tag emitted around each match. -/
def markOpen (cur : Bool) (n : Nat) : List Char :=
  '<' :: markOpenRest cur n

def markClose : List Char := "</mark>".data

def codeOpen : List Char := "<code>".data

def codeClose : List Char := "</code>".data

/-- Case folding used by the `'i'` regex flag. -/
def lower (l : List Char) : List Char :=
  l.map Char.toLower

/-- The global case-insensitive replace of the escaped, regex-escaped
needle (FileViewer.jsx): `safe.replace(new RegExp(escapeRegex(q), 'gi'),
m => ...)`.  Because the needle is regex-escaped, the pattern matches the
needle literally; this scan finds the leftmost non-overlapping
case-insensitive occurrences, wraps each match `m` in the mark tag
(double-escaping `m` as the callback does with `escapeHtml(m)`), counts
the matches in `n`, and copies every other character through. -/
def hlScan (q0 : Char) (qr : List Char) (idx : Nat) :
    Nat → List Char → List Char × Nat
  | n, [] => ([], n)
  | n, c :: rest =>
    if (lower (q0 :: qr)).isPrefixOf (lower (c :: rest)) then
      let t := hlScan q0 qr idx (n + 1) (rest.drop qr.length)
      (markOpen (n == idx) n ++ escHtml (c :: rest.take qr.length) ++
        markClose ++ t.1, t.2)
    else
      let t := hlScan q0 qr idx n rest
      (c :: t.1, t.2)
termination_by _ s => s.length
decreasing_by
  · simp only [List.length_drop, List.length_cons]
    omega
  · simp only [List.length_cons]
    omega

/-- The `useMemo` html/count computation of `FileViewer.jsx`: escape the
content, and if the trimmed needle is non-empty, highlight its
case-insensitive literal occurrences; wrap everything in `<code>`. -/
def buildHtml (content needle : String) (idx : Nat) : List Char × Nat :=
  let safe := escHtml content.data
  match (jsTrim needle).data with
  | [] => (codeOpen ++ safe ++ codeClose, 0)
  | q0 :: qr =>
    let r := hlScan q0 qr idx 0 safe
    (codeOpen ++ r.1 ++ codeClose, r.2)

/-- The tag tokens the viewer itself emits: `<code>`, `</code>`,
`<mark ...>` openings and `</mark>`. -/
def allowedTags : List (List Char) :=
  [codeOpen, codeClose, "<mark ".data, markClose]

/-- Every `<` in the list opens one of the viewer's own tags: some allowed
tag token starts exactly there.  Consequently no tag can originate from
the file content or the needle. -/
def TagSafe (l : List Char) : Prop :=
  ∀ i : Nat, l[i]? = some '<' → ∃ t ∈ allowedTags, t <+: l.drop i

theorem mem_of_getElemQ {α : Type} {l : List α} {i : Nat} {a : α}
    (h : l[i]? = some a) : a ∈ l := by
  obtain ⟨hlt, rfl⟩ := List.getElem?_eq_some.mp h
  exact List.getElem_mem hlt

theorem tagSafe_of_no_lt (l : List Char) (h : '<' ∉ l) : TagSafe l := by
  intro i hi
  exact absurd (mem_of_getElemQ hi) h

theorem tagSafe_append (a b : List Char) (ha : TagSafe a) (hb : TagSafe b) :
    TagSafe (a ++ b) := by
  intro i hi
  by_cases h : i < a.length
  · have h1 : a[i]? = some '<' := by
      rwa [List.getElem?_append, if_pos h] at hi
    obtain ⟨t, ht, hp⟩ := ha i h1
    refine ⟨t, ht, ?_⟩
    have hd : (a ++ b).drop i = a.drop i ++ b := by
      rw [List.drop_append_eq_append_drop, show i - a.length = 0 by omega,
        List.drop_zero]
    rw [hd]
    exact hp.trans (List.prefix_append _ b)
  · have hlen : a.length ≤ i := by omega
    have h1 : b[i - a.length]? = some '<' := by
      rwa [List.getElem?_append_right hlen] at hi
    obtain ⟨t, ht, hp⟩ := hb _ h1
    refine ⟨t, ht, ?_⟩
    have hd : (a ++ b).drop i = b.drop (i - a.length) := by
      rw [List.drop_append_eq_append_drop, List.drop_eq_nil_of_le hlen,
        List.nil_append]
    rw [hd]
    exact hp

theorem tagSafe_cons (c : Char) (l : List Char) (hc : c ≠ '<')
    (hl : TagSafe l) : TagSafe (c :: l) := by
  intro i hi
  match i with
  | 0 =>
    simp only [List.getElem?_cons_zero, Option.some.injEq] at hi
    exact absurd hi hc
  | i + 1 =>
    have h1 : l[i]? = some '<' := by simpa using hi
    obtain ⟨t, ht, hp⟩ := hl i h1
    exact ⟨t, ht, by simpa [List.drop_succ_cons] using hp⟩

theorem tagSafe_seg (t2 rest : List Char) (ht : '<' :: t2 ∈ allowedTags)
    (h1 : '<' ∉ t2) (h2 : '<' ∉ rest) : TagSafe (('<' :: t2) ++ rest) := by
  intro i hi
  match i with
  | 0 =>
    refine ⟨'<' :: t2, ht, ?_⟩
    simp only [List.drop_zero]
    exact List.prefix_append ('<' :: t2) rest
  | j + 1 =>
    have h3 : (t2 ++ rest)[j]? = some '<' := by simpa using hi
    have h4 : '<' ∈ t2 ++ rest := mem_of_getElemQ h3
    rcases List.mem_append.mp h4 with h | h
    · exact absurd h h1
    · exact absurd h h2

theorem lt_not_mem_escHtmlChar (c : Char) : '<' ∉ escHtmlChar c := by
  by_cases h1 : c = '&'
  · simp only [escHtmlChar, h1, if_true]
    decide
  · by_cases h2 : c = '<'
    · simp only [escHtmlChar, h1, if_false, h2, if_true]
      decide
    · by_cases h3 : c = '>'
      · simp only [escHtmlChar, h1, if_false, h2, if_false, h3, if_true]
        decide
      · simp only [escHtmlChar, h1, if_false, h2, if_false, h3, if_false]
        intro hm
        simp only [List.mem_singleton] at hm
        exact h2 hm.symm

theorem lt_not_mem_escHtml (l : List Char) : '<' ∉ escHtml l := by
  induction l with
  | nil => simp [escHtml]
  | cons c cs ih =>
    intro h
    rcases List.mem_append.mp h with h | h
    · exact lt_not_mem_escHtmlChar c h
    · exact ih h

theorem lt_ne_digitChar (d : Nat) : ('<' : Char) ≠ digitChar d := by
  unfold digitChar
  split <;> decide

theorem lt_not_mem_natCharsAux (fuel : Nat) : ∀ n, '<' ∉ natCharsAux fuel n := by
  induction fuel with
  | zero => intro n; simp [natCharsAux]
  | succ fuel ih =>
    intro n
    by_cases h : n < 10
    · simp only [natCharsAux, h, if_true]
      intro hm
      simp only [List.mem_singleton] at hm
      exact lt_ne_digitChar n hm
    · simp only [natCharsAux, h, if_false]
      intro hm
      rcases List.mem_append.mp hm with hm | hm
      · exact ih (n / 10) hm
      · simp only [List.mem_singleton] at hm
        exact lt_ne_digitChar (n % 10) hm

theorem lt_not_mem_natChars (n : Nat) : '<' ∉ natChars n :=
  lt_not_mem_natCharsAux n n

theorem tagSafe_markOpen (b : Bool) (k : Nat) : TagSafe (markOpen b k) := by
  have hsplit : ("mark class=\"hit").data = "mark ".data ++ "class=\"hit".data := by
    decide
  have h1 : markOpen b k = ('<' :: "mark ".data) ++
      ("class=\"hit".data ++ ((if b then " current".data else []) ++
        ("\" data-hit=\"".data ++ (natChars k ++ "\">".data)))) := by
    simp [markOpen, markOpenRest, hsplit, List.append_assoc]
  rw [h1]
  apply tagSafe_seg
  · decide
  · decide
  · intro hmem
    rcases List.mem_append.mp hmem with h | h
    · exact absurd h (by decide)
    rcases List.mem_append.mp h with h | h
    · cases b
      · simp at h
      · exact absurd h (by decide)
    rcases List.mem_append.mp h with h | h
    · exact absurd h (by decide)
    rcases List.mem_append.mp h with h | h
    · exact absurd h (lt_not_mem_natChars k)
    · exact absurd h (by decide)

theorem tagSafe_markClose : TagSafe markClose := by
  have h1 : markClose = ('<' :: "/mark>".data) ++ [] := by decide
  rw [h1]
  apply tagSafe_seg
  · decide
  · decide
  · simp

theorem tagSafe_codeOpen : TagSafe codeOpen := by
  have h1 : codeOpen = ('<' :: "code>".data) ++ [] := by decide
  rw [h1]
  apply tagSafe_seg
  · decide
  · decide
  · simp

theorem tagSafe_codeClose : TagSafe codeClose := by
  have h1 : codeClose = ('<' :: "/code>".data) ++ [] := by decide
  rw [h1]
  apply tagSafe_seg
  · decide
  · decide
  · simp

theorem hlScan_nil (q0 : Char) (qr : List Char) (idx n : Nat) :
    hlScan q0 qr idx n [] = ([], n) := by
  simp [hlScan]

theorem hlScan_cons_pos (q0 : Char) (qr : List Char) (idx n : Nat)
    (c : Char) (rest : List Char)
    (h : (lower (q0 :: qr)).isPrefixOf (lower (c :: rest)) = true) :
    hlScan q0 qr idx n (c :: rest) =
      (markOpen (n == idx) n ++ escHtml (c :: rest.take qr.length) ++
        markClose ++ (hlScan q0 qr idx (n + 1) (rest.drop qr.length)).1,
       (hlScan q0 qr idx (n + 1) (rest.drop qr.length)).2) := by
  rw [hlScan]
  simp [h]

theorem hlScan_cons_neg (q0 : Char) (qr : List Char) (idx n : Nat)
    (c : Char) (rest : List Char)
    (h : (lower (q0 :: qr)).isPrefixOf (lower (c :: rest)) = false) :
    hlScan q0 qr idx n (c :: rest) =
      (c :: (hlScan q0 qr idx n rest).1, (hlScan q0 qr idx n rest).2) := by
  rw [hlScan]
  simp [h]

theorem hlScan_tagSafe (q0 : Char) (qr : List Char) (idx : Nat) :
    ∀ (fuel n : Nat) (s : List Char), s.length ≤ fuel → '<' ∉ s →
      TagSafe (hlScan q0 qr idx n s).1 := by
  intro fuel
  induction fuel with
  | zero =>
    intro n s hs h
    have : s = [] := List.eq_nil_of_length_eq_zero (by omega)
    subst this
    rw [hlScan_nil]
    exact tagSafe_of_no_lt [] (by simp)
  | succ fuel ih =>
    intro n s hs h
    match s with
    | [] =>
      rw [hlScan_nil]
      exact tagSafe_of_no_lt [] (by simp)
    | c :: rest =>
      have hc : c ≠ '<' := fun e => h (e ▸ List.mem_cons_self c rest)
      have hrest : '<' ∉ rest := fun e => h (List.mem_cons_of_mem c e)
      have hlen : rest.length ≤ fuel := by
        simp only [List.length_cons] at hs
        omega
      by_cases hm : (lower (q0 :: qr)).isPrefixOf (lower (c :: rest)) = true
      · rw [hlScan_cons_pos q0 qr idx n c rest hm]
        refine tagSafe_append _ _ (tagSafe_append _ _ (tagSafe_append _ _
          (tagSafe_markOpen _ _) ?_) tagSafe_markClose) ?_
        · exact tagSafe_of_no_lt _ (lt_not_mem_escHtml _)
        · refine ih (n + 1) (rest.drop qr.length) ?_ ?_
          · have := List.length_drop qr.length rest
            omega
          · exact fun e => hrest (List.drop_subset qr.length rest e)
      · rw [hlScan_cons_neg q0 qr idx n c rest (by rwa [Bool.not_eq_true] at hm)]
        exact tagSafe_cons c _ hc (ih n rest hlen hrest)

/-- C8: for every document content string and find-in-file needle, the
HTML built by the file viewer is tag-safe — the content is HTML-escaped
before insertion and the needle (regex-escaped in the source, hence
matched literally by the scan) is matched against the escaped text only —
so every `<` in the output opens one of the viewer's own tags (`<code>`,
`</code>`, `<mark ...>`, `</mark>`): no tag can originate from the file
content or from the needle. -/
theorem fileViewer_tag_safety (content needle : String) (idx : Nat) :
    TagSafe (buildHtml content needle idx).1 := by
  have hsafe : '<' ∉ escHtml content.data := lt_not_mem_escHtml content.data
  cases hq : (jsTrim needle).data with
  | nil =>
    have hb : (buildHtml content needle idx).1 =
        codeOpen ++ escHtml content.data ++ codeClose := by
      simp only [buildHtml, hq]
    rw [hb]
    exact tagSafe_append _ _
      (tagSafe_append _ _ tagSafe_codeOpen (tagSafe_of_no_lt _ hsafe))
      tagSafe_codeClose
  | cons q0 qr =>
    have hb : (buildHtml content needle idx).1 =
        codeOpen ++ (hlScan q0 qr idx 0 (escHtml content.data)).1 ++
          codeClose := by
      simp only [buildHtml, hq]
    rw [hb]
    exact tagSafe_append _ _
      (tagSafe_append _ _ tagSafe_codeOpen
        (hlScan_tagSafe q0 qr idx (escHtml content.data).length 0
          (escHtml content.data) le_rfl hsafe))
      tagSafe_codeClose

end SeekQL
